import Mathlib

/-!
Shallow embedding of the `promises` Go package (src/promises.go).

A `Promise[T]` in the source is a record holding an `option.Option[T]`
value slot, an `error` reason slot, a one-shot `done` channel, and a
mutex serializing settlement.  The mutex serializes every `resolve` /
`reject` call, so settlement is modelled as sequential application of
settlement calls to a promise state; `close(p.done)` is modelled by the
boolean field `doneClosed`.  Go `error` values are modelled as
`Option GoError` with `none` standing for `nil`; `errNilReason` is the
package-level sentinel `errors.New("nil reason")`.
-/

namespace Promises

/-- Model of Go `error` values used by the package: the fixed package
sentinel `errNilReason` plus arbitrary user errors. -/
inductive GoError where
  | errNilReason
  | user (msg : String)
deriving DecidableEq, Repr

/-- Model of a `context.Context` as consumed by this package: whether its
done channel has been closed, and the error `ctx.Err()` reports once it
is canceled. -/
structure GoCtx where
  canceled : Bool
  cancelReason : GoError
deriving DecidableEq, Repr

/-- Model of `ctx.Err()`: non-nil exactly when the context is done. -/
def GoCtx.err (ctx : GoCtx) : Option GoError :=
  if ctx.canceled then some ctx.cancelReason else none

/-- State of a `Promise[T]` (src/promises.go lines 24-29): the optional
value slot, the reason slot, and whether `close(p.done)` has run. -/
structure PromiseState (T : Type) where
  optionalValue : Option T
  reason : Option GoError
  doneClosed : Bool
deriving DecidableEq, Repr

/-- State built by `New` before the executor acts (lines 50-54):
no value, nil reason, open done channel. -/
def New (T : Type) : PromiseState T :=
  { optionalValue := none, reason := none, doneClosed := false }

/-- Unexported `isFulfilled` (line 90): the value slot is occupied. -/
def isFulfilled {T : Type} (p : PromiseState T) : Bool :=
  p.optionalValue.isSome

/-- Unexported `isRejected` (line 95): the reason is non-nil. -/
def isRejected {T : Type} (p : PromiseState T) : Bool :=
  p.reason.isSome

/-- Unexported `isSettled` (line 99). -/
def isSettled {T : Type} (p : PromiseState T) : Bool :=
  isFulfilled p || isRejected p

/-- The `resolve` closure created by `New` (lines 56-66): under the lock,
no-op when already settled, otherwise store the value and close `done`. -/
def resolve {T : Type} (value : T) (p : PromiseState T) : PromiseState T :=
  if isSettled p then p
  else { p with optionalValue := some value, doneClosed := true }

/-- The `reject` closure created by `New` (lines 68-83): under the lock,
no-op when already settled; a nil reason is replaced by the fixed
`errNilReason` sentinel; `done` is closed. -/
def reject {T : Type} (reason : Option GoError) (p : PromiseState T) :
    PromiseState T :=
  if isSettled p then p
  else
    match reason with
    | none => { p with reason := some GoError.errNilReason, doneClosed := true }
    | some r => { p with reason := some r, doneClosed := true }

/-- One settlement call an executor can make on its promise. -/
inductive SettleCall (T : Type) where
  | resolveC (value : T)
  | rejectC (reason : Option GoError)
deriving DecidableEq, Repr

/-- Apply one settlement call (the mutex in `New` serializes them). -/
def applyCall {T : Type} (c : SettleCall T) (p : PromiseState T) :
    PromiseState T :=
  match c with
  | SettleCall.resolveC v => resolve v p
  | SettleCall.rejectC r => reject r p

/-- Run a sequence of settlement calls in order on a promise state. -/
def runCalls {T : Type} (calls : List (SettleCall T)) (p : PromiseState T) :
    PromiseState T :=
  calls.foldl (fun st c => applyCall c st) p

/-- State of the promise returned by `New` after its executor has issued
the given settlement calls. -/
def runExecutor {T : Type} (calls : List (SettleCall T)) : PromiseState T :=
  runCalls calls (New T)

/-- A promise state is reachable when some sequence of settlement calls
produces it from the state `New` constructs. -/
def Reachable {T : Type} (p : PromiseState T) : Prop :=
  ∃ calls : List (SettleCall T), runExecutor calls = p

/-!
`Await` (lines 163-180) is a `select` over `ctx.Done()` and `p.done`.
When exactly one channel is ready the `select` takes that branch; when
both are ready Go picks one pseudo-randomly, modelled by the oracle
`pickCancel` (`true` means the `ctx.Done()` case is taken on a tie).
When neither is ready the call blocks, modelled by the result `none`.
The cancel branch returns the zero value of `T` (from
`option.None[T]().Value()`) together with `ctx.Err()`; the done branch
returns the stored value (zero when absent) and the stored reason.
`zero` is the Go zero value of `T`.
-/

/-- Model of `Await` (lines 163-180). -/
def Await {T : Type} (ctx : GoCtx) (pickCancel : Bool) (zero : T)
    (p : PromiseState T) : Option (T × Option GoError) :=
  if ctx.canceled && (!p.doneClosed || pickCancel) then
    some (zero, some ctx.cancelReason)
  else if p.doneClosed then
    some (p.optionalValue.getD zero, p.reason)
  else
    none

/-- The `*Promise[T]` value a callback method returns: the Go `nil`
pointer, or the pointer to the original promise. -/
inductive RetRef where
  | nilRef
  | original
deriving DecidableEq, Repr

/-- Model of `Then` (lines 105-124): the same `select` as `Await`; on
cancellation return `nil` without invoking the callback; on settlement
invoke `onFulfilled` exactly when the value slot is occupied and return
the original promise.  The second component records the argument the
callback was invoked with (`none` when it was not invoked); `none`
overall means the call blocks. -/
def Then {T : Type} (ctx : GoCtx) (pickCancel : Bool) (p : PromiseState T) :
    Option (RetRef × Option T) :=
  if ctx.canceled && (!p.doneClosed || pickCancel) then
    some (RetRef.nilRef, none)
  else if p.doneClosed then
    some (RetRef.original, p.optionalValue)
  else
    none

/-- Model of `Catch` (lines 128-146): on settlement invoke `onRejected`
exactly when the reason is non-nil.  The second component records the
reason the callback was invoked with (`none` when it was not invoked). -/
def Catch {T : Type} (ctx : GoCtx) (pickCancel : Bool) (p : PromiseState T) :
    Option (RetRef × Option GoError) :=
  if ctx.canceled && (!p.doneClosed || pickCancel) then
    some (RetRef.nilRef, none)
  else if p.doneClosed then
    some (RetRef.original, p.reason)
  else
    none

/-- Model of `Finally` (lines 150-160): on settlement always invoke
`onFinally`.  The second component records whether the callback ran. -/
def Finally {T : Type} (ctx : GoCtx) (pickCancel : Bool)
    (p : PromiseState T) : Option (RetRef × Bool) :=
  if ctx.canceled && (!p.doneClosed || pickCancel) then
    some (RetRef.nilRef, false)
  else if p.doneClosed then
    some (RetRef.original, true)
  else
    none

/-- Settlement status (lines 31-36). -/
inductive Status where
  | Fulfilled
  | Rejected
deriving DecidableEq, Repr

/-- One entry of an `AllSettled` result (lines 282-286).  The Go zero
value of the struct is `{Fulfilled, zero, nil}`, which is what
`make([]SettledResult[T], n)` fills slots with. -/
structure SettledResult (T : Type) where
  status : Status
  value : T
  reason : Option GoError
deriving DecidableEq, Repr

/-!
Aggregators (lines 255-314).  Each spawns one goroutine per input
promise; goroutine `i` performs `promises[i].Await(ctx)` and reacts to
the pair it returns.  The aggregator's behaviour depends only on those
pairs and on the order the child waits return, so the embedding takes
`outcomes : List (T × Option GoError)` — the value/error pair child
`i`'s `Await` returns — and `completed : List Nat` — the child indices
in the order their waits return.  `allSteps` is the state after exactly
the waits in `completed` have returned (results slice, parent promise);
`All` additionally runs the `wg.Wait(); resolve(results)` tail, which in
the source only happens once every child wait has returned, i.e. when
`completed` enumerates all indices.
-/

/-- State of `All`'s executor (lines 256-276) after the child waits
listed in `completed` have returned, in that order: the `results` slice
(zero-filled by `make`) and the parent promise state.  A child whose
wait returns a non-nil error calls `reject(err)` on the parent at once;
a child whose wait returns nil error stores its value at its index. -/
def allSteps {T : Type} (zero : T) (outcomes : List (T × Option GoError))
    (completed : List Nat) : List T × PromiseState (List T) :=
  completed.foldl
    (fun st i =>
      match outcomes[i]? with
      | some (_, some e) => (st.1, reject (some e) st.2)
      | some (v, none) => (st.1.set i v, st.2)
      | none => st)
    (List.replicate outcomes.length zero, New (List T))

/-- Model of `All` (lines 255-280): after every child wait has returned
(in the order given by `completed`), `wg.Wait()` unblocks and the
executor calls `resolve(results)` on the parent. -/
def All {T : Type} (zero : T) (outcomes : List (T × Option GoError))
    (completed : List Nat) : PromiseState (List T) :=
  resolve (allSteps zero outcomes completed).1
    (allSteps zero outcomes completed).2

/-- Reason of the first child wait in completion order that returned a
non-nil error, if any: the winner of the race to `reject` the parent. -/
def firstFailure {T : Type} (outcomes : List (T × Option GoError))
    (completed : List Nat) : Option GoError :=
  completed.findSome? fun i =>
    match outcomes[i]? with
    | some (_, some e) => some e
    | _ => none

/-- The `SettledResult` that `AllSettled`'s goroutine records for a
child whose wait returned the given pair (lines 299-305). -/
def settleOf {T : Type} (zero : T) (o : T × Option GoError) :
    SettledResult T :=
  match o with
  | (_, some e) => { status := Status.Rejected, value := zero, reason := some e }
  | (v, none) => { status := Status.Fulfilled, value := v, reason := none }

/-- State of `AllSettled`'s executor (lines 290-310) after the child
waits listed in `completed` have returned: every child records its own
outcome at its own index; the parent is never rejected.  The results
slice starts as `make([]SettledResult[T], n)`, i.e. filled with the
struct's zero value. -/
def allSettledSteps {T : Type} (zero : T)
    (outcomes : List (T × Option GoError)) (completed : List Nat) :
    List (SettledResult T) × PromiseState (List (SettledResult T)) :=
  completed.foldl
    (fun st i =>
      match outcomes[i]? with
      | some o => (st.1.set i (settleOf zero o), st.2)
      | none => st)
    (List.replicate outcomes.length
      { status := Status.Fulfilled, value := zero, reason := none },
      New (List (SettledResult T)))

/-- Model of `AllSettled` (lines 289-314): once every child wait has
returned, the executor resolves the parent with the results slice. -/
def AllSettled {T : Type} (zero : T) (outcomes : List (T × Option GoError))
    (completed : List Nat) : PromiseState (List (SettledResult T)) :=
  resolve (allSettledSteps zero outcomes completed).1
    (allSettledSteps zero outcomes completed).2

/-!
Helper lemmas.
-/

/-- Settlement calls leave an already-settled promise unchanged. -/
theorem applyCall_of_settled {T : Type} (c : SettleCall T)
    (p : PromiseState T) (h : isSettled p = true) : applyCall c p = p := by
  cases c with
  | resolveC v => simp [applyCall, resolve, h]
  | rejectC r => simp [applyCall, reject, h]

/-- Coherence invariant of a promise state: the done channel is closed
exactly when the state is settled, and the value and reason slots are
never both occupied. -/
def Inv {T : Type} (p : PromiseState T) : Prop :=
  p.doneClosed = isSettled p
    ∧ ¬(isFulfilled p = true ∧ isRejected p = true)

theorem inv_New (T : Type) : Inv (New T) := by
  constructor <;> simp [New, isSettled, isFulfilled, isRejected]

theorem inv_applyCall {T : Type} (c : SettleCall T) (p : PromiseState T)
    (h : Inv p) : Inv (applyCall c p) := by
  by_cases hs : isSettled p = true
  · rw [applyCall_of_settled c p hs]; exact h
  · have hs2 : isSettled p = false := by simpa using hs
    have hf : p.optionalValue = none := by
      cases ho : p.optionalValue with
      | none => rfl
      | some v => simp [isSettled, isFulfilled, ho] at hs2
    have hr : p.reason = none := by
      cases ho : p.reason with
      | none => rfl
      | some e => simp [isSettled, isRejected, ho] at hs2
    cases c with
    | resolveC v =>
        simp [applyCall, resolve, Inv, isSettled, isFulfilled,
          isRejected, hf, hr]
    | rejectC r =>
        cases r <;>
          simp [applyCall, reject, Inv, isSettled, isFulfilled,
            isRejected, hf, hr]

theorem inv_runCalls {T : Type} (calls : List (SettleCall T)) :
    ∀ p : PromiseState T, Inv p → Inv (runCalls calls p) := by
  induction calls with
  | nil => intro p h; exact h
  | cons c cs ih =>
      intro p h
      have : runCalls (c :: cs) p = runCalls cs (applyCall c p) := rfl
      rw [this]
      exact ih (applyCall c p) (inv_applyCall c p h)

/-- Every reachable promise state satisfies the coherence invariant. -/
theorem inv_of_reachable {T : Type} (p : PromiseState T)
    (h : Reachable p) : Inv p := by
  obtain ⟨calls, hc⟩ := h
  rw [← hc]
  exact inv_runCalls calls (New T) (inv_New T)

theorem resolve_New {T : Type} (v : T) :
    resolve v (New T)
      = { optionalValue := some v, reason := none, doneClosed := true } := by
  simp [resolve, New, isSettled, isFulfilled, isRejected]

theorem reject_some_New {T : Type} (e : GoError) :
    reject (some e) (New T)
      = { optionalValue := none, reason := some e, doneClosed := true } := by
  simp [reject, New, isSettled, isFulfilled, isRejected]

/-- Parent component of `All`'s executor fold, in isolation: only the
`reject(err)` calls of failing children touch the parent. -/
def parentAfter {T : Type} (outcomes : List (T × Option GoError))
    (completed : List Nat) (pp : PromiseState (List T)) :
    PromiseState (List T) :=
  completed.foldl
    (fun q i =>
      match outcomes[i]? with
      | some (_, some e) => reject (some e) q
      | _ => q) pp

/-- Results component of either aggregator fold, in isolation: each
completed index `i` overwrites slot `i` with `w i` when present. -/
def writeFold {α : Type} (w : Nat → Option α) (completed : List Nat)
    (acc : List α) : List α :=
  completed.foldl
    (fun rs i =>
      match w i with
      | some a => rs.set i a
      | none => rs) acc

/-- The slot value a fulfilled child of `All` writes at its index. -/
def wAll {T : Type} (outcomes : List (T × Option GoError)) (i : Nat) :
    Option T :=
  match outcomes[i]? with
  | some (v, none) => some v
  | _ => none

/-- The slot value a child of `AllSettled` writes at its index. -/
def wSettled {T : Type} (zero : T) (outcomes : List (T × Option GoError))
    (i : Nat) : Option (SettledResult T) :=
  (outcomes[i]?).map (settleOf zero)

theorem allFold_eq {T : Type} (outcomes : List (T × Option GoError)) :
    ∀ (completed : List Nat) (rs : List T) (pp : PromiseState (List T)),
      completed.foldl
        (fun st i =>
          match outcomes[i]? with
          | some (_, some e) => (st.1, reject (some e) st.2)
          | some (v, none) => (st.1.set i v, st.2)
          | none => st)
        (rs, pp)
      = (writeFold (wAll outcomes) completed rs,
         parentAfter outcomes completed pp) := by
  intro completed
  induction completed with
  | nil => intro rs pp; rfl
  | cons i cs ih =>
      intro rs pp
      rw [List.foldl_cons]
      cases ho : outcomes[i]? with
      | none =>
          simp only [ho]
          rw [ih rs pp]
          simp only [writeFold, parentAfter, List.foldl_cons, wAll, ho]
      | some o =>
          obtain ⟨v, err⟩ := o
          cases err with
          | none =>
              simp only [ho]
              rw [ih (rs.set i v) pp]
              simp only [writeFold, parentAfter, List.foldl_cons, wAll, ho]
          | some e =>
              simp only [ho]
              rw [ih rs (reject (some e) pp)]
              simp only [writeFold, parentAfter, List.foldl_cons, wAll, ho]

theorem allSteps_eq {T : Type} (zero : T)
    (outcomes : List (T × Option GoError)) (completed : List Nat) :
    allSteps zero outcomes completed
      = (writeFold (wAll outcomes) completed
          (List.replicate outcomes.length zero),
         parentAfter outcomes completed (New (List T))) :=
  allFold_eq outcomes completed (List.replicate outcomes.length zero)
    (New (List T))

theorem allSettledFold_eq {T : Type} (zero : T)
    (outcomes : List (T × Option GoError)) :
    ∀ (completed : List Nat) (rs : List (SettledResult T))
      (pp : PromiseState (List (SettledResult T))),
      completed.foldl
        (fun st i =>
          match outcomes[i]? with
          | some o => (st.1.set i (settleOf zero o), st.2)
          | none => st)
        (rs, pp)
      = (writeFold (wSettled zero outcomes) completed rs, pp) := by
  intro completed
  induction completed with
  | nil => intro rs pp; rfl
  | cons i cs ih =>
      intro rs pp
      rw [List.foldl_cons]
      cases ho : outcomes[i]? with
      | none =>
          simp only [ho]
          rw [ih rs pp]
          simp only [writeFold, List.foldl_cons, wSettled, ho, Option.map]
      | some o =>
          simp only [ho]
          rw [ih (rs.set i (settleOf zero o)) pp]
          simp only [writeFold, List.foldl_cons, wSettled, ho, Option.map]

theorem allSettledSteps_eq {T : Type} (zero : T)
    (outcomes : List (T × Option GoError)) (completed : List Nat) :
    allSettledSteps zero outcomes completed
      = (writeFold (wSettled zero outcomes) completed
          (List.replicate outcomes.length
            { status := Status.Fulfilled, value := zero, reason := none }),
         New (List (SettledResult T))) :=
  allSettledFold_eq zero outcomes completed _ _

theorem parentAfter_settled {T : Type}
    (outcomes : List (T × Option GoError)) :
    ∀ (completed : List Nat) (pp : PromiseState (List T)),
      isSettled pp = true → parentAfter outcomes completed pp = pp := by
  intro completed
  induction completed with
  | nil => intro pp _; rfl
  | cons i cs ih =>
      intro pp h
      simp only [parentAfter, List.foldl_cons]
      cases ho : outcomes[i]? with
      | none => exact ih pp h
      | some o =>
          obtain ⟨v, err⟩ := o
          cases err with
          | none => exact ih pp h
          | some e =>
              have hrej : reject (some e) pp = pp := by simp [reject, h]
              show parentAfter outcomes cs (reject (some e) pp) = pp
              rw [hrej]
              exact ih pp h

theorem parentAfter_New {T : Type} (outcomes : List (T × Option GoError)) :
    ∀ completed : List Nat,
      parentAfter outcomes completed (New (List T))
        = match firstFailure outcomes completed with
          | none => New (List T)
          | some e =>
              { optionalValue := none, reason := some e, doneClosed := true } := by
  intro completed
  induction completed with
  | nil => rfl
  | cons i cs ih =>
      cases ho : outcomes[i]? with
      | none =>
          have h1 : parentAfter outcomes (i :: cs) (New (List T))
              = parentAfter outcomes cs (New (List T)) := by
            simp only [parentAfter, List.foldl_cons, ho]
          have h2 : firstFailure outcomes (i :: cs)
              = firstFailure outcomes cs := by
            simp only [firstFailure, List.findSome?_cons, ho]
          rw [h1, h2]
          exact ih
      | some o =>
          obtain ⟨v, err⟩ := o
          cases err with
          | none =>
              have h1 : parentAfter outcomes (i :: cs) (New (List T))
                  = parentAfter outcomes cs (New (List T)) := by
                simp only [parentAfter, List.foldl_cons, ho]
              have h2 : firstFailure outcomes (i :: cs)
                  = firstFailure outcomes cs := by
                simp only [firstFailure, List.findSome?_cons, ho]
              rw [h1, h2]
              exact ih
          | some e =>
              have hset : isSettled (reject (some e) (New (List T))) = true := by
                rw [reject_some_New]
                simp [isSettled, isRejected]
              have h1 : parentAfter outcomes (i :: cs) (New (List T))
                  = parentAfter outcomes cs (reject (some e) (New (List T))) := by
                simp only [parentAfter, List.foldl_cons, ho]
              have h2 : firstFailure outcomes (i :: cs) = some e := by
                simp only [firstFailure, List.findSome?_cons, ho]
              rw [h1, parentAfter_settled outcomes cs _ hset,
                reject_some_New, h2]

theorem writeFold_length {α : Type} (w : Nat → Option α) :
    ∀ (completed : List Nat) (acc : List α),
      (writeFold w completed acc).length = acc.length := by
  intro completed
  induction completed with
  | nil => intro acc; rfl
  | cons i cs ih =>
      intro acc
      simp only [writeFold, List.foldl_cons]
      cases hw : w i with
      | none => exact ih acc
      | some a =>
          calc (cs.foldl _ (acc.set i a)).length
              = (acc.set i a).length := ih (acc.set i a)
            _ = acc.length := List.length_set acc i a

theorem writeFold_not_mem {α : Type} (w : Nat → Option α) :
    ∀ (completed : List Nat) (acc : List α) (j : Nat), j ∉ completed →
      (writeFold w completed acc)[j]? = acc[j]? := by
  intro completed
  induction completed with
  | nil => intro acc j _; rfl
  | cons i cs ih =>
      intro acc j hj
      have hji : j ≠ i := fun h => hj (h ▸ List.mem_cons_self i cs)
      have hjcs : j ∉ cs := fun h => hj (List.mem_cons_of_mem i h)
      simp only [writeFold, List.foldl_cons]
      cases hw : w i with
      | none => exact ih acc j hjcs
      | some a =>
          calc (cs.foldl _ (acc.set i a))[j]?
              = (acc.set i a)[j]? := ih (acc.set i a) j hjcs
            _ = acc[j]? := List.getElem?_set_ne hji.symm

theorem writeFold_mem {α : Type} (w : Nat → Option α) :
    ∀ (completed : List Nat) (acc : List α) (j : Nat), completed.Nodup →
      j ∈ completed → j < acc.length →
      (writeFold w completed acc)[j]?
        = match w j with
          | some a => some a
          | none => acc[j]? := by
  intro completed
  induction completed with
  | nil => intro acc j _ hj _; exact absurd hj (List.not_mem_nil j)
  | cons i cs ih =>
      intro acc j hnd hj hlt
      have hnd2 : i ∉ cs ∧ cs.Nodup := List.nodup_cons.mp hnd
      simp only [writeFold, List.foldl_cons]
      rcases List.mem_cons.mp hj with hji | hjcs
      · subst hji
        have hjcs : j ∉ cs := hnd2.1
        cases hw : w j with
        | none =>
            calc (cs.foldl _ acc)[j]?
                = acc[j]? := writeFold_not_mem w cs acc j hjcs
              _ = _ := rfl
        | some a =>
            calc (cs.foldl _ (acc.set j a))[j]?
                = (acc.set j a)[j]? := writeFold_not_mem w cs _ j hjcs
              _ = some a := List.getElem?_set_self hlt
      · have hji : j ≠ i := fun h => hnd2.1 (h ▸ hjcs)
        cases hw : w i with
        | none => exact ih acc j hnd2.2 hjcs hlt
        | some a =>
            have hlt2 : j < (acc.set i a).length := by
              rw [List.length_set]; exact hlt
            have key := ih (acc.set i a) j hnd2.2 hjcs hlt2
            show (writeFold w cs (acc.set i a))[j]? = _
            rw [key]
            cases hwj : w j with
            | none => exact List.getElem?_set_ne (Ne.symm hji)
            | some b => rfl

/-- A duplicate-free list of in-range indices whose length matches the
range contains every in-range index: the completion order of an
aggregator run that has waited on every child. -/
theorem completed_mem_iff (completed : List Nat) (n : Nat)
    (hnd : completed.Nodup) (hlt : ∀ i ∈ completed, i < n)
    (hlen : completed.length = n) : ∀ j, j ∈ completed ↔ j < n := by
  have hsub : completed ⊆ List.range n := fun i hi =>
    List.mem_range.mpr (hlt i hi)
  have hsp : List.Subperm completed (List.range n) :=
    List.subperm_of_subset hnd hsub
  have hperm : List.Perm completed (List.range n) :=
    hsp.perm_of_length_le (by simp [hlen])
  intro j
  rw [hperm.mem_iff, List.mem_range]

/-- When some completed child wait failed, the first failure in
completion order wins the race to `reject` and the parent of `All`
ends rejected with that reason and no value. -/
theorem All_of_firstFailure {T : Type} (zero : T)
    (outcomes : List (T × Option GoError)) (completed : List Nat)
    (e : GoError) (hff : firstFailure outcomes completed = some e) :
    All zero outcomes completed
      = { optionalValue := none, reason := some e, doneClosed := true } := by
  have hpar : (allSteps zero outcomes completed).2
      = { optionalValue := none, reason := some e, doneClosed := true } := by
    rw [allSteps_eq, parentAfter_New, hff]
  unfold All
  rw [hpar]
  simp [resolve, isSettled, isRejected]

/-- When every child wait succeeded and every child has completed, the
parent of `All` ends fulfilled with the children's values in input
order. -/
theorem All_of_all_ok {T : Type} (zero : T)
    (outcomes : List (T × Option GoError)) (completed : List Nat)
    (hok : ∀ o ∈ outcomes, o.2 = none) (hnd : completed.Nodup)
    (hlt : ∀ i ∈ completed, i < outcomes.length)
    (hlen : completed.length = outcomes.length) :
    All zero outcomes completed
      = { optionalValue := some (outcomes.map Prod.fst), reason := none,
          doneClosed := true } := by
  have hmem := completed_mem_iff completed outcomes.length hnd hlt hlen
  have hff : firstFailure outcomes completed = none := by
    rw [firstFailure, List.findSome?_eq_none_iff]
    intro i _
    cases ho : outcomes[i]? with
    | none => rfl
    | some o =>
        obtain ⟨v, err⟩ := o
        have hm : (v, err) ∈ outcomes := by
          obtain ⟨h1, h2⟩ := List.getElem?_eq_some.mp ho
          exact h2 ▸ List.getElem_mem h1
        have : err = none := hok (v, err) hm
        subst this
        rfl
  have hpar : (allSteps zero outcomes completed).2 = New (List T) := by
    rw [allSteps_eq, parentAfter_New, hff]
  have hres : (allSteps zero outcomes completed).1
      = outcomes.map Prod.fst := by
    rw [allSteps_eq]
    apply List.ext_getElem?
    intro j
    by_cases hj : j < outcomes.length
    · have hjm : j ∈ completed := (hmem j).mpr hj
      have hjl : j < (List.replicate outcomes.length zero).length := by
        rw [List.length_replicate]; exact hj
      rw [writeFold_mem (wAll outcomes) completed _ j hnd hjm hjl]
      cases ho : outcomes[j]? with
      | none =>
          exact absurd (List.getElem?_eq_none_iff.mp ho) (Nat.not_le.mpr hj)
      | some o =>
          obtain ⟨v, err⟩ := o
          have hm : (v, err) ∈ outcomes := by
            obtain ⟨h1, h2⟩ := List.getElem?_eq_some.mp ho
            exact h2 ▸ List.getElem_mem h1
          have herr : err = none := hok (v, err) hm
          subst herr
          have hw : wAll outcomes j = some v := by
            simp [wAll, ho]
          rw [hw, List.getElem?_map, ho]
          rfl
    · have hjn : j ∉ completed := fun h => hj ((hmem j).mp h)
      rw [writeFold_not_mem (wAll outcomes) completed _ j hjn]
      rw [List.getElem?_eq_none (by rw [List.length_replicate]; omega),
        List.getElem?_eq_none (by rw [List.length_map]; omega)]
  unfold All
  rw [hpar, hres, resolve_New]

/-- Once every child has completed, `AllSettled` resolves with each
child's settled outcome at its own index; its parent is never
rejected. -/
theorem AllSettled_of_complete {T : Type} (zero : T)
    (outcomes : List (T × Option GoError)) (completed : List Nat)
    (hnd : completed.Nodup) (hlt : ∀ i ∈ completed, i < outcomes.length)
    (hlen : completed.length = outcomes.length) :
    AllSettled zero outcomes completed
      = { optionalValue := some (outcomes.map (settleOf zero)),
          reason := none, doneClosed := true } := by
  have hmem := completed_mem_iff completed outcomes.length hnd hlt hlen
  have hres : (allSettledSteps zero outcomes completed).1
      = outcomes.map (settleOf zero) := by
    rw [allSettledSteps_eq]
    apply List.ext_getElem?
    intro j
    by_cases hj : j < outcomes.length
    · have hjm : j ∈ completed := (hmem j).mpr hj
      have hjl : j < (List.replicate outcomes.length
          ({ status := Status.Fulfilled, value := zero, reason := none }
            : SettledResult T)).length := by
        rw [List.length_replicate]; exact hj
      rw [writeFold_mem (wSettled zero outcomes) completed _ j hnd hjm hjl]
      cases ho : outcomes[j]? with
      | none =>
          exact absurd (List.getElem?_eq_none_iff.mp ho) (Nat.not_le.mpr hj)
      | some o =>
          have hw : wSettled zero outcomes j = some (settleOf zero o) := by
            simp [wSettled, ho]
          rw [hw, List.getElem?_map, ho]
          rfl
    · have hjn : j ∉ completed := fun h => hj ((hmem j).mp h)
      rw [writeFold_not_mem (wSettled zero outcomes) completed _ j hjn]
      rw [List.getElem?_eq_none (by rw [List.length_replicate]; omega),
        List.getElem?_eq_none (by rw [List.length_map]; omega)]
  have hpar : (allSettledSteps zero outcomes completed).2
      = New (List (SettledResult T)) := by
    rw [allSettledSteps_eq]
  unfold AllSettled
  rw [hpar, hres, resolve_New]

/-- The parent of `AllSettled` carries a nil reason whatever the
completion order, even before all children have completed: its executor
never calls `reject`. -/
theorem AllSettled_reason_none {T : Type} (zero : T)
    (outcomes : List (T × Option GoError)) (completed : List Nat) :
    (AllSettled zero outcomes completed).reason = none := by
  unfold AllSettled
  rw [allSettledSteps_eq]
  simp [resolve_New]

/-- The parent of `All` is never fulfilled while child waits are still
being processed: only the final `resolve(results)` after the counting
join can fulfill it. -/
theorem allSteps_not_fulfilled {T : Type} (zero : T)
    (outcomes : List (T × Option GoError)) (completed : List Nat) :
    isFulfilled (allSteps zero outcomes completed).2 = false := by
  rw [allSteps_eq, parentAfter_New]
  cases firstFailure outcomes completed with
  | none => simp [New, isFulfilled]
  | some e => simp [isFulfilled]

/-!
Claim theorems.
-/

/-- C1: once a promise is settled, every later call to resolve or reject
is a silent no-op that leaves the stored value, the stored reason and
the settlement kind unchanged; in particular an executor that calls
resolve(1) then resolve(2) leaves the promise fulfilled with 1. -/
theorem C1_settled_settlement_noop :
    (∀ (T : Type) (p : PromiseState T) (c : SettleCall T),
        isSettled p = true → applyCall c p = p)
    ∧ (runExecutor [SettleCall.resolveC 1, SettleCall.resolveC 2]
        : PromiseState Nat)
      = { optionalValue := some 1, reason := none, doneClosed := true } :=
  ⟨fun _ p c h => applyCall_of_settled c p h, by decide⟩

/-- Witness for C1: a promise fulfilled with 1 is settled, and a late
reject call leaves it unchanged. -/
theorem C1_settled_settlement_noop_witness :
    isSettled (runExecutor [SettleCall.resolveC (1 : Nat)]) = true
    ∧ applyCall (SettleCall.rejectC (some (GoError.user "late")))
        (runExecutor [SettleCall.resolveC (1 : Nat)])
      = runExecutor [SettleCall.resolveC (1 : Nat)] :=
  ⟨by decide, C1_settled_settlement_noop.1 Nat _ _ (by decide)⟩

/-- C2 counterexample: for `All` over children `[fulfilled 1,
rejected "boom", fulfilled 3]`, after only child 1's wait has returned
(children 0 and 2 have not completed), the parent is already settled:
the failing child's `reject(err)` fires at once, so there IS a
short-circuit settlement on the first child failure, contradicting the
claim that the parent is not settled until every child wait has
completed. -/
theorem C2_counterexample :
    isSettled (allSteps 0
      [((1 : Nat), none), (0, some (GoError.user "boom")), (3, none)]
      [1]).2 = true
    ∧ (0 : Nat) ∉ ([1] : List Nat)
    ∧ (2 : Nat) ∉ ([1] : List Nat) := by
  decide

/-- C2 amended: the parent of `All` is never RESOLVED (fulfilled)
before every child wait has completed — `resolve(results)` only runs
after the counting join — and while no completed child wait has failed
the parent is still pending; but the first failing child wait rejects
the parent immediately, without waiting for the remaining children. -/
theorem C2_no_resolve_before_join :
    (∀ (T : Type) (zero : T) (outcomes : List (T × Option GoError))
        (completed : List Nat),
        isFulfilled (allSteps zero outcomes completed).2 = false)
    ∧ (∀ (T : Type) (zero : T) (outcomes : List (T × Option GoError))
        (completed : List Nat),
        firstFailure outcomes completed = none →
        isSettled (allSteps zero outcomes completed).2 = false)
    ∧ (∀ (T : Type) (zero : T) (outcomes : List (T × Option GoError))
        (completed : List Nat) (e : GoError),
        firstFailure outcomes completed = some e →
        isSettled (allSteps zero outcomes completed).2 = true) := by
  refine ⟨fun T zero outcomes completed =>
      allSteps_not_fulfilled zero outcomes completed,
    fun T zero outcomes completed h => ?_,
    fun T zero outcomes completed e h => ?_⟩
  · rw [allSteps_eq, parentAfter_New, h]
    simp [New, isSettled, isFulfilled, isRejected]
  · rw [allSteps_eq, parentAfter_New, h]
    simp [isSettled, isRejected]

/-- Witness for C2 amended: with both children fulfilled and only child
0 completed the parent is pending; with child 1 rejected and completed
first the parent is already settled. -/
theorem C2_no_resolve_before_join_witness :
    firstFailure [((1 : Nat), none), (2, none)] [0] = none
    ∧ isSettled (allSteps 0 [((1 : Nat), none), (2, none)] [0]).2 = false
    ∧ firstFailure [((1 : Nat), none), (0, some (GoError.user "x"))] [1]
        = some (GoError.user "x")
    ∧ isSettled (allSteps 0
        [((1 : Nat), none), (0, some (GoError.user "x"))] [1]).2 = true :=
  ⟨by decide, C2_no_resolve_before_join.2.1 Nat 0 _ _ (by decide),
    by decide,
    C2_no_resolve_before_join.2.2 Nat 0 _ _ (GoError.user "x") (by decide)⟩

/-- C3: if any child wait of `All` fails (returns a non-nil error), the
parent is rejected with the first failure's reason, in completion
order, and carries no value; in particular `All` over
`[resolve(1), reject(boom), resolve(3)]` — whose child waits return
`(1, nil)`, `(0, boom)`, `(3, nil)` — is rejected with reason `boom`
and no usable collection.  (src/promises.go's `All` has no internal
"missing value" check: a child wait that returns a nil error always
carries a usable value, so the only failures are propagated errors.) -/
theorem C3_all_first_failure_rejects :
    (∀ (T : Type) (zero : T) (outcomes : List (T × Option GoError))
        (completed : List Nat) (e : GoError),
        firstFailure outcomes completed = some e →
        (All zero outcomes completed).reason = some e
        ∧ (All zero outcomes completed).optionalValue = none
        ∧ isRejected (All zero outcomes completed) = true)
    ∧ Await { canceled := false, cancelReason := GoError.user "unused" }
        false 0 (runExecutor [SettleCall.resolveC (1 : Nat)])
      = some (1, none)
    ∧ Await { canceled := false, cancelReason := GoError.user "unused" }
        false 0 (runExecutor [SettleCall.rejectC (some (GoError.user "boom"))])
      = some ((0 : Nat), some (GoError.user "boom"))
    ∧ (All 0 [((1 : Nat), none), (0, some (GoError.user "boom")), (3, none)]
        [0, 1, 2]).reason = some (GoError.user "boom")
    ∧ (All 0 [((1 : Nat), none), (0, some (GoError.user "boom")), (3, none)]
        [0, 1, 2]).optionalValue = none := by
  refine ⟨fun T zero outcomes completed e h => ?_, by decide, by decide,
    by decide, by decide⟩
  rw [All_of_firstFailure zero outcomes completed e h]
  exact ⟨rfl, rfl, rfl⟩

/-- Witness for C3: the concrete three-child run has first failure
`boom` and the theorem yields its rejection. -/
theorem C3_all_first_failure_rejects_witness :
    (All 0 [((1 : Nat), none), (0, some (GoError.user "boom")), (3, none)]
      [2, 1, 0]).reason = some (GoError.user "boom")
    ∧ (All 0 [((1 : Nat), none), (0, some (GoError.user "boom")), (3, none)]
      [2, 1, 0]).optionalValue = none :=
  ⟨(C3_all_first_failure_rejects.1 Nat 0 _ _ (GoError.user "boom")
      (by decide)).1,
    (C3_all_first_failure_rejects.1 Nat 0 _ _ (GoError.user "boom")
      (by decide)).2.1⟩

/-- C4: rejecting an unsettled promise with a nil reason still settles
it as rejected with the fixed non-nil `errNilReason` sentinel, and no
rejected promise ever carries a nil reason. -/
theorem C4_nil_reason_substituted :
    (∀ (T : Type) (p : PromiseState T), isSettled p = false →
        (reject none p).reason = some GoError.errNilReason
        ∧ isRejected (reject none p) = true
        ∧ isSettled (reject none p) = true
        ∧ (reject none p).reason ≠ none)
    ∧ (∀ (T : Type) (p : PromiseState T), isRejected p = true →
        p.reason ≠ none) := by
  constructor
  · intro T p h
    have hr : (reject none p).reason = some GoError.errNilReason := by
      simp [reject, h]
    refine ⟨hr, ?_, ?_, by rw [hr]; simp⟩
    · rw [isRejected, hr]; rfl
    · simp [isSettled, isRejected, hr]
  · intro T p h hn
    rw [isRejected, hn] at h
    simp at h

/-- Witness for C4: rejecting the fresh promise with a nil reason. -/
theorem C4_nil_reason_substituted_witness :
    (reject none (New Nat)).reason = some GoError.errNilReason
    ∧ isRejected (reject none (New Nat)) = true
    ∧ isRejected (runExecutor [SettleCall.rejectC
        (some (GoError.user "e"))] : PromiseState Nat) = true
    ∧ (runExecutor [SettleCall.rejectC (some (GoError.user "e"))]
        : PromiseState Nat).reason ≠ none :=
  ⟨(C4_nil_reason_substituted.1 Nat (New Nat) (by decide)).1,
    (C4_nil_reason_substituted.1 Nat (New Nat) (by decide)).2.1,
    by decide,
    C4_nil_reason_substituted.2 Nat _ (by decide)⟩

/-- C5: when the cancellation token has fired and the promise is not
settled, `Await` returns the token's own error with the zero value in
the success slot, and the promise is unaffected: it is still pending
and can still be fulfilled with any value or rejected with any reason
afterwards. -/
theorem C5_cancel_abandons_wait :
    ∀ (T : Type) (zero : T) (ctx : GoCtx) (pickCancel : Bool)
      (p : PromiseState T),
      Reachable p → ctx.canceled = true → p.doneClosed = false →
      Await ctx pickCancel zero p = some (zero, GoCtx.err ctx)
      ∧ GoCtx.err ctx = some ctx.cancelReason
      ∧ isSettled p = false
      ∧ (∀ v : T, (resolve v p).optionalValue = some v
          ∧ isFulfilled (resolve v p) = true)
      ∧ (∀ e : GoError, (reject (some e) p).reason = some e
          ∧ isRejected (reject (some e) p) = true) := by
  intro T zero ctx pickCancel p hreach hc hd
  have hinv := inv_of_reachable p hreach
  have hset : isSettled p = false := by rw [← hinv.1]; exact hd
  refine ⟨?_, ?_, hset, ?_, ?_⟩
  · simp [Await, hc, hd, GoCtx.err]
  · simp [GoCtx.err, hc]
  · intro v
    have h1 : (resolve v p).optionalValue = some v := by simp [resolve, hset]
    exact ⟨h1, by rw [isFulfilled, h1]; rfl⟩
  · intro e
    have h1 : (reject (some e) p).reason = some e := by simp [reject, hset]
    exact ⟨h1, by rw [isRejected, h1]; rfl⟩

/-- Witness for C5: a canceled token against the fresh pending promise. -/
theorem C5_cancel_abandons_wait_witness :
    Await { canceled := true, cancelReason := GoError.user "killed" }
      false 0 (New Nat)
      = some (0, GoCtx.err ⟨true, GoError.user "killed"⟩)
    ∧ isSettled (New Nat) = false
    ∧ (resolve 7 (New Nat)).optionalValue = some 7 :=
  ⟨(C5_cancel_abandons_wait Nat 0 _ false (New Nat) ⟨[], rfl⟩ rfl rfl).1,
    (C5_cancel_abandons_wait Nat 0
      { canceled := true, cancelReason := GoError.user "killed" } false
      (New Nat) ⟨[], rfl⟩ rfl rfl).2.2.1,
    ((C5_cancel_abandons_wait Nat 0
      { canceled := true, cancelReason := GoError.user "killed" } false
      (New Nat) ⟨[], rfl⟩ rfl rfl).2.2.2.1 7).1⟩

/-- C6: `AllSettled` never rejects its parent: the parent's reason is
nil whatever the completion order, and once every child has completed
the parent is fulfilled with each child's outcome recorded at its own
index (`Fulfilled` with the value, or `Rejected` with the reason); in
particular over children `[fulfilled 1, rejected boom, fulfilled 3]`
it resolves to `[{Fulfilled,1}, {Rejected,boom}, {Fulfilled,3}]`.
(src/promises.go's `AllSettled` has no internal "missing value" check:
a child wait that returns a nil error always carries a usable value.) -/
theorem C6_allsettled_never_rejects :
    (∀ (T : Type) (zero : T) (outcomes : List (T × Option GoError))
        (completed : List Nat),
        (AllSettled zero outcomes completed).reason = none
        ∧ isRejected (AllSettled zero outcomes completed) = false)
    ∧ (∀ (T : Type) (zero : T) (outcomes : List (T × Option GoError))
        (completed : List Nat),
        completed.Nodup → (∀ i ∈ completed, i < outcomes.length) →
        completed.length = outcomes.length →
        isFulfilled (AllSettled zero outcomes completed) = true
        ∧ (AllSettled zero outcomes completed).optionalValue
            = some (outcomes.map (settleOf zero)))
    ∧ (AllSettled 0
        [((1 : Nat), none), (0, some (GoError.user "boom")), (3, none)]
        [0, 1, 2]).optionalValue
      = some [⟨Status.Fulfilled, 1, none⟩,
          ⟨Status.Rejected, 0, some (GoError.user "boom")⟩,
          ⟨Status.Fulfilled, 3, none⟩] := by
  refine ⟨fun T zero outcomes completed =>
      ⟨AllSettled_reason_none zero outcomes completed,
        by rw [isRejected, AllSettled_reason_none]; rfl⟩,
    fun T zero outcomes completed hnd hlt hlen => ?_, by decide⟩
  rw [AllSettled_of_complete zero outcomes completed hnd hlt hlen]
  exact ⟨rfl, rfl⟩

/-- Witness for C6: the three-child run completed in order [2, 0, 1]. -/
theorem C6_allsettled_never_rejects_witness :
    isFulfilled (AllSettled 0
      [((1 : Nat), none), (0, some (GoError.user "boom")), (3, none)]
      [2, 0, 1]) = true
    ∧ (AllSettled 0
        [((1 : Nat), none), (0, some (GoError.user "boom")), (3, none)]
        [2, 0, 1]).optionalValue
      = some [⟨Status.Fulfilled, 1, none⟩,
          ⟨Status.Rejected, 0, some (GoError.user "boom")⟩,
          ⟨Status.Fulfilled, 3, none⟩] :=
  ⟨(C6_allsettled_never_rejects.2.1 Nat 0 _ _ (by decide) (by decide)
      (by decide)).1,
    (C6_allsettled_never_rejects.2.1 Nat 0 _ _ (by decide) (by decide)
      (by decide)).2⟩

set_option maxRecDepth 10000 in
/-- C7: when every child fulfills, both `All` and `AllSettled` place
input index i's outcome at result index i regardless of the completion
order; in particular `All` over 100 children resolving to 0..99, with
the waits completing in reverse order, resolves to `[0, 1, ..., 99]`. -/
theorem C7_index_order :
    (∀ (T : Type) (zero : T) (outcomes : List (T × Option GoError))
        (completed : List Nat),
        (∀ o ∈ outcomes, o.2 = none) →
        completed.Nodup → (∀ i ∈ completed, i < outcomes.length) →
        completed.length = outcomes.length →
        (All zero outcomes completed).optionalValue
            = some (outcomes.map Prod.fst)
        ∧ (AllSettled zero outcomes completed).optionalValue
            = some (outcomes.map (settleOf zero)))
    ∧ (All 0 ((List.range 100).map fun i => ((i : Nat),
        (none : Option GoError)))
        (List.range 100).reverse).optionalValue = some (List.range 100) := by
  refine ⟨fun T zero outcomes completed hok hnd hlt hlen => ?_, by decide⟩
  rw [All_of_all_ok zero outcomes completed hok hnd hlt hlen,
    AllSettled_of_complete zero outcomes completed hnd hlt hlen]
  exact ⟨rfl, rfl⟩

/-- Witness for C7: two fulfilled children completing out of order. -/
theorem C7_index_order_witness :
    (All 0 [((5 : Nat), none), (7, none)] [1, 0]).optionalValue
      = some [5, 7]
    ∧ (AllSettled 0 [((5 : Nat), none), (7, none)] [1, 0]).optionalValue
      = some [⟨Status.Fulfilled, 5, none⟩, ⟨Status.Fulfilled, 7, none⟩] :=
  ⟨(C7_index_order.1 Nat 0 _ _ (by decide) (by decide) (by decide)
      (by decide)).1,
    (C7_index_order.1 Nat 0 _ _ (by decide) (by decide) (by decide)
      (by decide)).2⟩

/-- C8: `Await` on a promise whose done channel closed before the wait
(and whose cancel branch is not selected) returns the terminal outcome:
the stored value with a nil error when fulfilled, the zero value with
the non-nil rejection reason when rejected. -/
theorem C8_await_on_settled :
    ∀ (T : Type) (zero : T) (ctx : GoCtx) (pickCancel : Bool)
      (p : PromiseState T),
      Reachable p → p.doneClosed = true →
      (ctx.canceled = false ∨ pickCancel = false) →
      (∀ v : T, p.optionalValue = some v →
          Await ctx pickCancel zero p = some (v, none))
      ∧ (p.optionalValue = none →
          Await ctx pickCancel zero p = some (zero, p.reason)
          ∧ p.reason ≠ none) := by
  intro T zero ctx pickCancel p hreach hd htie
  have hinv := inv_of_reachable p hreach
  have hcond : (ctx.canceled && (!p.doneClosed || pickCancel)) = false := by
    rw [hd]
    rcases htie with h | h <;> simp [h]
  have hAw : Await ctx pickCancel zero p
      = some (p.optionalValue.getD zero, p.reason) := by
    unfold Await
    rw [hcond]
    simp [hd]
  constructor
  · intro v hv
    have hrn : p.reason = none := by
      cases hr : p.reason with
      | none => rfl
      | some e =>
          exact absurd ⟨by simp [isFulfilled, hv], by simp [isRejected, hr]⟩
            hinv.2
    rw [hAw, hv, hrn]
    rfl
  · intro hv
    have hsettled : isSettled p = true := by rw [← hinv.1]; exact hd
    have hr : p.reason ≠ none := by
      intro hrn
      rw [isSettled, isFulfilled, isRejected, hv, hrn] at hsettled
      simp at hsettled
    exact ⟨by rw [hAw, hv]; rfl, hr⟩

/-- Witness for C8: an already-fulfilled promise with value 1 under a
non-canceled context. -/
theorem C8_await_on_settled_witness :
    Await { canceled := false, cancelReason := GoError.user "unused" }
      false 0 (runExecutor [SettleCall.resolveC (1 : Nat)])
      = some (1, none) :=
  (C8_await_on_settled Nat 0 _ false _ ⟨[SettleCall.resolveC 1], rfl⟩
    (by decide) (Or.inl rfl)).1 1 (by decide)

/-- C9: for `Then`, `Catch` and `Finally`: when the token has fired and
the promise is unsettled, the callback is not invoked and the nil
sentinel — distinct from the original promise — is returned; when the
promise has settled (and the cancel branch is not selected) the
matching callback runs with the terminal value or reason and the
original promise is returned; a branch mismatch (Then on a rejected
promise, Catch on a fulfilled one) silently skips the callback and
still returns the original promise. -/
theorem C9_callback_semantics :
    (∀ (T : Type) (ctx : GoCtx) (pc : Bool) (p : PromiseState T),
        ctx.canceled = true → p.doneClosed = false →
        Then ctx pc p = some (RetRef.nilRef, none)
        ∧ Catch ctx pc p = some (RetRef.nilRef, none)
        ∧ Finally ctx pc p = some (RetRef.nilRef, false)
        ∧ RetRef.nilRef ≠ RetRef.original)
    ∧ (∀ (T : Type) (ctx : GoCtx) (pc : Bool) (p : PromiseState T) (v : T),
        Reachable p → p.doneClosed = true →
        (ctx.canceled = false ∨ pc = false) →
        p.optionalValue = some v →
        Then ctx pc p = some (RetRef.original, some v)
        ∧ Catch ctx pc p = some (RetRef.original, none)
        ∧ Finally ctx pc p = some (RetRef.original, true))
    ∧ (∀ (T : Type) (ctx : GoCtx) (pc : Bool) (p : PromiseState T),
        Reachable p → p.doneClosed = true →
        (ctx.canceled = false ∨ pc = false) →
        p.optionalValue = none →
        Then ctx pc p = some (RetRef.original, none)
        ∧ (∃ e : GoError, p.reason = some e
            ∧ Catch ctx pc p = some (RetRef.original, some e))
        ∧ Finally ctx pc p = some (RetRef.original, true)) := by
  refine ⟨fun T ctx pc p hc hd => ?_,
    fun T ctx pc p v hreach hd htie hv => ?_,
    fun T ctx pc p hreach hd htie hv => ?_⟩
  · refine ⟨?_, ?_, ?_, by simp⟩ <;> simp [Then, Catch, Finally, hc, hd]
  · have hinv := inv_of_reachable p hreach
    have hcond : (ctx.canceled && (!p.doneClosed || pc)) = false := by
      rw [hd]
      rcases htie with h | h <;> simp [h]
    have hrn : p.reason = none := by
      cases hr : p.reason with
      | none => rfl
      | some e =>
          exact absurd ⟨by simp [isFulfilled, hv], by simp [isRejected, hr]⟩
            hinv.2
    have hThen : Then ctx pc p = some (RetRef.original, p.optionalValue) := by
      unfold Then; rw [hcond]; simp [hd]
    have hCatch : Catch ctx pc p = some (RetRef.original, p.reason) := by
      unfold Catch; rw [hcond]; simp [hd]
    have hFin : Finally ctx pc p = some (RetRef.original, true) := by
      unfold Finally; rw [hcond]; simp [hd]
    exact ⟨by rw [hThen, hv], by rw [hCatch, hrn], hFin⟩
  · have hinv := inv_of_reachable p hreach
    have hcond : (ctx.canceled && (!p.doneClosed || pc)) = false := by
      rw [hd]
      rcases htie with h | h <;> simp [h]
    have hsettled : isSettled p = true := by rw [← hinv.1]; exact hd
    have hre : ∃ e : GoError, p.reason = some e := by
      cases hr : p.reason with
      | some e => exact ⟨e, rfl⟩
      | none =>
          rw [isSettled, isFulfilled, isRejected, hv, hr] at hsettled
          simp at hsettled
    obtain ⟨e, he⟩ := hre
    have hThen : Then ctx pc p = some (RetRef.original, p.optionalValue) := by
      unfold Then; rw [hcond]; simp [hd]
    have hCatch : Catch ctx pc p = some (RetRef.original, p.reason) := by
      unfold Catch; rw [hcond]; simp [hd]
    have hFin : Finally ctx pc p = some (RetRef.original, true) := by
      unfold Finally; rw [hcond]; simp [hd]
    exact ⟨by rw [hThen, hv], ⟨e, he, by rw [hCatch, he]⟩, hFin⟩

/-- Witness for C9: a canceled wait on a pending promise, a fulfilled
promise, and a rejected promise. -/
theorem C9_callback_semantics_witness :
    Then ⟨true, GoError.user "c"⟩ false (New Nat)
      = some (RetRef.nilRef, none)
    ∧ Then ⟨false, GoError.user "c"⟩ false
        (runExecutor [SettleCall.resolveC (1 : Nat)])
      = some (RetRef.original, some 1)
    ∧ Catch ⟨false, GoError.user "c"⟩ false
        (runExecutor [SettleCall.rejectC (some (GoError.user "boom"))]
          : PromiseState Nat)
      = some (RetRef.original, some (GoError.user "boom")) := by
  refine ⟨(C9_callback_semantics.1 Nat ⟨true, GoError.user "c"⟩ false
      (New Nat) rfl rfl).1,
    (C9_callback_semantics.2.1 Nat ⟨false, GoError.user "c"⟩ false _ 1
      ⟨[SettleCall.resolveC 1], rfl⟩ (by decide) (Or.inl rfl)
      (by decide)).1, ?_⟩
  obtain ⟨e, he, hc⟩ := (C9_callback_semantics.2.2 Nat
    ⟨false, GoError.user "c"⟩ false
    (runExecutor [SettleCall.rejectC (some (GoError.user "boom"))]
      : PromiseState Nat)
    ⟨[SettleCall.rejectC (some (GoError.user "boom"))], rfl⟩
    (by decide) (Or.inl rfl) (by decide)).2.1
  have hb : (runExecutor [SettleCall.rejectC (some (GoError.user "boom"))]
      : PromiseState Nat).reason = some (GoError.user "boom") := by decide
  have h3 : some e = some (GoError.user "boom") := he.symm.trans hb
  cases h3
  exact hc

/-- C10: `All` and `AllSettled` over zero input promises resolve with
the empty collection and a nil reason. -/
theorem C10_empty_aggregation :
    All 0 ([] : List (Nat × Option GoError)) []
      = { optionalValue := some [], reason := none, doneClosed := true }
    ∧ AllSettled 0 ([] : List (Nat × Option GoError)) []
      = { optionalValue := some [], reason := none, doneClosed := true }
    ∧ isFulfilled (All 0 ([] : List (Nat × Option GoError)) []) = true := by
  decide

end Promises
